import Mathlib

/-!
Shallow embedding of the snarkOS crawler / synthetic-node networking code:
the peer registry and handshake (synthetic_node/src/lib.rs), the framed
message codec (crawler/src/crawler.rs, read_message / write_message), and
the inbound message handlers (process_peer_request / process_peer_response /
process_ping) together with one iteration of the peer-update control loop.

Machine integers are modelled as Nat with explicit wrap-around (`% 2 ^ w`)
where the Rust code can overflow; bytes are Nats. Rust panics (slice
out-of-bounds) are modelled by an explicit `panicked` outcome.
Release-profile semantics are used: `debug_assert!` is compiled out and
integer arithmetic wraps.
-/

namespace Crawler

/-- A socket address: an (ip, port) pair. The ip is modelled as a 32-bit
number (IPv4), the port as a 16-bit number. -/
structure SocketAddr where
  ip : Nat
  port : Nat
deriving DecidableEq, Repr

/-- Node types carried in handshake and ping messages
(snarkos_environment::helpers::NodeType). -/
inductive NodeType where
  | client
  | miner
  | beacon
  | operatorNode
  | sync
deriving DecidableEq, Repr

/-- Node states carried in handshake and ping messages
(snarkos_environment::helpers::State). -/
inductive StateT where
  | ready
  | mining
  | syncing
  | disconnected
deriving DecidableEq, Repr

/-- The io::ErrorKind values the embedded code produces. -/
inductive IOErr where
  | alreadyExists
  | invalidData
  | notConnected
deriving DecidableEq, Repr

/-! ### Little-endian byte encoding helpers -/

/-- Encode `n` in `w` little-endian bytes (truncating, as Rust casts do). -/
def toLE : Nat → Nat → List Nat
  | 0, _ => []
  | w + 1, n => n % 256 :: toLE w (n / 256)

/-- Decode a little-endian byte list into a Nat
(u32::from_le_bytes and friends). -/
def fromLE : List Nat → Nat
  | [] => 0
  | b :: bs => b + 256 * fromLE bs

/-! ### Association-list operations

The Rust code stores both registry maps as `HashMap`s; they are embedded as
association lists whose keys are kept duplicate-free by the operations the
code actually performs (insertion only after an absence check, removal of
the unique entry). -/

/-- Lookup in an association list (HashMap::get). -/
def lookupA {α β : Type} [DecidableEq α] (k : α) : List (α × β) → Option β
  | [] => none
  | (k', v) :: t => if k' = k then some v else lookupA k t

/-- Key-membership test (HashMap::contains_key). -/
def containsA {α β : Type} [DecidableEq α] (k : α) (l : List (α × β)) : Bool :=
  (lookupA k l).isSome

/-- Remove the first entry with the given key (HashMap::remove on a map with
unique keys). -/
def eraseA {α β : Type} [DecidableEq α] (k : α) : List (α × β) → List (α × β)
  | [] => []
  | (k', v) :: t => if k' = k then t else (k', v) :: eraseA k t

/-- Insert-or-replace (HashMap::insert). -/
def insertA {α β : Type} [DecidableEq α] (k : α) (v : β) (l : List (α × β)) :
    List (α × β) :=
  (k, v) :: eraseA k l

/-- Keys of an association list. -/
def keysA {α β : Type} (l : List (α × β)) : List α := l.map Prod.fst

/-! ### Messages and their wire form -/

/-- Modelled from the spec: the subset of the snarkOS `Message` enum (the
`ClientMessage` type alias) that the crawler emits or consumes. The full
enum and its wire schema live in snarkos_network, outside this repository
slice; the payload fields follow §3, §4.B and §4.G of the spec. -/
inductive ClientMessage where
  | challengeRequest (version fork_depth : Nat) (node_type : NodeType)
      (status : StateT) (listening_port nonce cumulative_weight : Nat)
  | challengeResponse (block_header : Nat)
  | disconnect (reason : Nat)
  | peerRequest
  | peerResponse (addrs : List SocketAddr)
  | ping (version fork_depth : Nat) (node_type : NodeType) (status : StateT)
      (block_hash block_header : Nat)
  | pong (is_fork : Option Bool) (block_locators : Nat)
deriving DecidableEq, Repr

namespace ClientMessage

/-- Modelled from the spec: the 2-byte message ID of each message
(snarkos_network::Message::id, outside this repository slice). -/
def msgId : ClientMessage → Nat
  | challengeRequest .. => 2
  | challengeResponse _ => 3
  | disconnect _ => 4
  | peerRequest => 5
  | peerResponse _ => 6
  | ping .. => 7
  | pong .. => 8

end ClientMessage

/-- Modelled from the spec: the accepted set
`{Disconnect, PeerRequest, PeerResponse, Ping, ChallengeRequest,
ChallengeResponse}` (the crawler's `ACCEPTED_MESSAGE_IDS` constant lives in
its constants module, outside this repository slice). -/
def ACCEPTED_MESSAGE_IDS : List Nat := [4, 5, 6, 7, 2, 3]

/-- Byte code of a node type. -/
def NodeType.toByte : NodeType → Nat
  | .client => 0
  | .miner => 1
  | .beacon => 2
  | .operatorNode => 3
  | .sync => 4

/-- Decode a node-type byte. -/
def NodeType.ofByte? : Nat → Option NodeType
  | 0 => some .client
  | 1 => some .miner
  | 2 => some .beacon
  | 3 => some .operatorNode
  | 4 => some .sync
  | _ => none

/-- Byte code of a node state. -/
def StateT.toByte : StateT → Nat
  | .ready => 0
  | .mining => 1
  | .syncing => 2
  | .disconnected => 3

/-- Decode a node-state byte. -/
def StateT.ofByte? : Nat → Option StateT
  | 0 => some .ready
  | 1 => some .mining
  | 2 => some .syncing
  | 3 => some .disconnected
  | _ => none

/-- Byte code of the optional fork flag of a Pong. -/
def forkByte : Option Bool → Nat
  | none => 0
  | some false => 1
  | some true => 2

/-- Decode the fork flag byte of a Pong. -/
def forkOfByte? : Nat → Option (Option Bool)
  | 0 => some none
  | 1 => some (some false)
  | 2 => some (some true)
  | _ => none

/-- Wire form of a socket address: 4-byte LE ip then 2-byte LE port. -/
def SocketAddr.toBytes (a : SocketAddr) : List Nat :=
  toLE 4 a.ip ++ toLE 2 a.port

namespace ClientMessage

/-- Modelled from the spec: the payload (everything after the 2-byte
message ID) of each message's wire form
(snarkos_network::Message::serialize_into, outside this repository slice). -/
def payload : ClientMessage → List Nat
  | challengeRequest v fd nt st port nonce w =>
      toLE 4 v ++ toLE 4 fd ++ toLE 1 nt.toByte ++ toLE 1 st.toByte ++
        toLE 2 port ++ toLE 8 nonce ++ toLE 16 w
  | challengeResponse h => toLE 8 h
  | disconnect r => toLE 2 r
  | peerRequest => []
  | peerResponse addrs =>
      toLE 8 addrs.length ++ (addrs.map SocketAddr.toBytes).flatten
  | ping v fd nt st bh hdr =>
      toLE 4 v ++ toLE 4 fd ++ toLE 1 nt.toByte ++ toLE 1 st.toByte ++
        toLE 8 bh ++ toLE 8 hdr
  | pong f loc => toLE 1 (forkByte f) ++ toLE 8 loc

/-- Modelled from the spec: `Message::serialize_into` writes the 2-byte
little-endian message ID followed by the payload. -/
def serialize (m : ClientMessage) : List Nat :=
  toLE 2 m.msgId ++ m.payload

end ClientMessage

/-- Read `w` bytes off the front of a byte list, failing if too few
remain. -/
def pN (w : Nat) (bs : List Nat) : Option (Nat × List Nat) :=
  if w ≤ bs.length then some (fromLE (bs.take w), bs.drop w) else none

/-- Parse `n` socket addresses off the front of a byte list. -/
def pAddrs : Nat → List Nat → Option (List SocketAddr × List Nat)
  | 0, bs => some ([], bs)
  | n + 1, bs => do
    let (ip, bs) ← pN 4 bs
    let (port, bs) ← pN 2 bs
    let (rest, bs) ← pAddrs n bs
    pure (SocketAddr.mk ip port :: rest, bs)

namespace ClientMessage

/-- Payload parser of a ChallengeRequest. -/
def parseChallengeRequest (r : List Nat) : Option ClientMessage := do
  let (v, r) ← pN 4 r
  let (fd, r) ← pN 4 r
  let (ntb, r) ← pN 1 r
  let nt ← NodeType.ofByte? ntb
  let (stb, r) ← pN 1 r
  let st ← StateT.ofByte? stb
  let (port, r) ← pN 2 r
  let (nonce, r) ← pN 8 r
  let (w, r) ← pN 16 r
  if r.isEmpty then pure (challengeRequest v fd nt st port nonce w) else none

/-- Payload parser of a ChallengeResponse. -/
def parseChallengeResponse (r : List Nat) : Option ClientMessage := do
  let (h, r) ← pN 8 r
  if r.isEmpty then pure (challengeResponse h) else none

/-- Payload parser of a Disconnect. -/
def parseDisconnect (r : List Nat) : Option ClientMessage := do
  let (reason, r) ← pN 2 r
  if r.isEmpty then pure (disconnect reason) else none

/-- Payload parser of a PeerResponse. -/
def parsePeerResponse (r : List Nat) : Option ClientMessage := do
  let (n, r) ← pN 8 r
  let (addrs, r) ← pAddrs n r
  if r.isEmpty then pure (peerResponse addrs) else none

/-- Payload parser of a Ping. -/
def parsePing (r : List Nat) : Option ClientMessage := do
  let (v, r) ← pN 4 r
  let (fd, r) ← pN 4 r
  let (ntb, r) ← pN 1 r
  let nt ← NodeType.ofByte? ntb
  let (stb, r) ← pN 1 r
  let st ← StateT.ofByte? stb
  let (bh, r) ← pN 8 r
  let (hdr, r) ← pN 8 r
  if r.isEmpty then pure (ping v fd nt st bh hdr) else none

/-- Payload parser of a Pong. -/
def parsePong (r : List Nat) : Option ClientMessage := do
  let (fb, r) ← pN 1 r
  let f ← forkOfByte? fb
  let (loc, r) ← pN 8 r
  if r.isEmpty then pure (pong f loc) else none

/-- Modelled from the spec: `Message::deserialize` reads the 2-byte ID and
then the payload determined by it, consuming the whole input
(snarkos_network::Message::deserialize, outside this repository slice). -/
def deserialize (bs : List Nat) : Option ClientMessage := do
  let (id, r) ← pN 2 bs
  if id = 2 then parseChallengeRequest r
  else if id = 3 then parseChallengeResponse r
  else if id = 4 then parseDisconnect r
  else if id = 5 then (if r.isEmpty then pure peerRequest else none)
  else if id = 6 then parsePeerResponse r
  else if id = 7 then parsePing r
  else if id = 8 then parsePong r
  else none

/-- Well-formedness of a message: every numeric field fits the width its
wire form gives it. -/
def wf : ClientMessage → Prop
  | challengeRequest v fd _ _ port nonce w =>
      v < 2 ^ 32 ∧ fd < 2 ^ 32 ∧ port < 2 ^ 16 ∧ nonce < 2 ^ 64 ∧ w < 2 ^ 128
  | challengeResponse h => h < 2 ^ 64
  | disconnect r => r < 2 ^ 16
  | peerRequest => True
  | peerResponse addrs =>
      addrs.length < 2 ^ 64 ∧
        ∀ a ∈ addrs, a.ip < 2 ^ 32 ∧ a.port < 2 ^ 16
  | ping v fd _ _ bh hdr =>
      v < 2 ^ 32 ∧ fd < 2 ^ 32 ∧ bh < 2 ^ 64 ∧ hdr < 2 ^ 64
  | pong _ loc => loc < 2 ^ 64

instance : DecidablePred wf := by
  intro m
  cases m <;> simp only [wf] <;> infer_instance

end ClientMessage

/-! ### The peer registry and the handshake (synthetic_node/src/lib.rs) -/

/-- A connected snarkOS client peer (struct ClientPeer). -/
structure ClientPeer where
  connected_addr : SocketAddr
  nonce : Nat
  node_type : NodeType
  cumulative_weight : Nat
  peer_version : Nat
deriving DecidableEq, Repr

/-- The synthetic node's shared state (struct ClientState): the nonce used
in handshakes, the map of listening addresses to peers, and the map from
connected addresses to listening addresses. -/
structure ClientState where
  local_nonce : Nat
  peers : List (SocketAddr × ClientPeer)
  address_map : List (SocketAddr × SocketAddr)
deriving DecidableEq, Repr

/-- The initial, empty registry. -/
def ClientState.empty (nonce : Nat) : ClientState :=
  { local_nonce := nonce, peers := [], address_map := [] }

/-- SynthNode::get_peer_listening_addr (release profile: the debug_assert
is compiled out). -/
def get_peer_listening_addr (st : ClientState) (addr : SocketAddr) :
    Option SocketAddr :=
  lookupA addr st.address_map

/-- MESSAGE_VERSION is re-exported from snarkos_environment (outside this
repository slice); its value is irrelevant to the embedded logic, which
deliberately never rejects on version. -/
def MESSAGE_VERSION : Nat := 12

/-- MAXIMUM_FORK_DEPTH is re-exported from snarkos_environment (outside
this repository slice); its value is irrelevant to the embedded logic. -/
def MAXIMUM_FORK_DEPTH : Nat := 4096

/-- The per-connection inputs of one perform_handshake run: the address of
the socket (connection.addr), and the two messages read from the peer, each
as the result of `ClientMessage::deserialize` (none models a
deserialization error). -/
structure HandshakeInput where
  peer_addr : SocketAddr
  peer_request : Option ClientMessage
  peer_response : Option ClientMessage
deriving DecidableEq, Repr

/-- The outcome of one perform_handshake run: the registry state after the
call, the messages written to the peer before the call ended, and the
io::ErrorKind of the failure, if any (none models Ok(connection)). -/
structure HsResult where
  state : ClientState
  sent : List ClientMessage
  err : Option IOErr
deriving DecidableEq, Repr

/-- Handshake::perform_handshake for SynthNode, with the socket reads and
writes replaced by the `HandshakeInput` / `sent` data. `genesis` is the
local genesis block header and `own_ip` the node's listening address. The
successive statements of the Rust function are mirrored in order: the
immediate duplicate check on the address map, the outgoing challenge
request, the match on the peer's challenge request (with the second
duplicate check on the peers map), the outgoing challenge response, and the
match on the peer's challenge response with the genesis comparison and the
final re-check of both maps before the two insertions. -/
def perform_handshake (genesis : Nat) (own_ip : SocketAddr) (st : ClientState)
    (inp : HandshakeInput) : HsResult :=
  let peer_addr := inp.peer_addr
  -- An immediate duplicate connection check.
  if containsA peer_addr st.address_map then
    ⟨st, [], some .alreadyExists⟩
  else
    -- Send a challenge request to the peer.
    let own_request := ClientMessage.challengeRequest MESSAGE_VERSION
      MAXIMUM_FORK_DEPTH .client .ready own_ip.port st.local_nonce 0
    -- Read the challenge request from the peer and register its data.
    match inp.peer_request with
    | some (.challengeRequest peer_version _fd peer_node_type _st
        peer_listening_port peer_nonce cumulative_weight) =>
      let peer_listening_addr : SocketAddr :=
        ⟨peer_addr.ip, peer_listening_port⟩
      if containsA peer_listening_addr st.peers then
        ⟨st, [own_request], some .alreadyExists⟩
      else
        -- Respond with own challenge response.
        let own_response := ClientMessage.challengeResponse genesis
        -- Wait for the challenge response to come in.
        match inp.peer_response with
        | some (.challengeResponse block_header) =>
          if block_header = genesis then
            if containsA peer_addr st.address_map ||
                containsA peer_listening_addr st.peers then
              ⟨st, [own_request, own_response], some .alreadyExists⟩
            else
              ⟨{ st with
                  address_map := insertA peer_addr peer_listening_addr
                    st.address_map,
                  peers := insertA peer_listening_addr
                    ⟨peer_addr, peer_nonce, peer_node_type, cumulative_weight,
                      peer_version⟩ st.peers },
                [own_request, own_response], none⟩
          else
            ⟨st, [own_request, own_response], some .invalidData⟩
        | some (.disconnect _) =>
          ⟨st, [own_request, own_response], some .notConnected⟩
        | _ => ⟨st, [own_request, own_response], some .invalidData⟩
    | some (.disconnect _) => ⟨st, [own_request], some .notConnected⟩
    | _ => ⟨st, [own_request], some .invalidData⟩

/-- Disconnect::handle_disconnect for SynthNode (release profile: the
debug_assert_eq on the map sizes is compiled out): remove the disconnecting
address from the address map and, if it was present, its listening address
from the peers map. -/
def handle_disconnect (st : ClientState) (disconnecting_addr : SocketAddr) :
    ClientState :=
  match lookupA disconnecting_addr st.address_map with
  | some listening_addr =>
    { st with
        address_map := eraseA disconnecting_addr st.address_map,
        peers := eraseA listening_addr st.peers }
  | none => st

/-- Writing::write_message for SynthNode: serialize the message, then write
the 4-byte little-endian length of the serialized bytes (a u32 cast of the
usize length) followed by those bytes. -/
def write_message (m : ClientMessage) : List Nat :=
  toLE 4 (m.serialize.length % 2 ^ 32) ++ m.serialize

/-- One step of the registry: either a perform_handshake run (which leaves
the state unchanged when it fails) or a handle_disconnect cleanup. -/
inductive RegistryOp where
  | handshake (inp : HandshakeInput)
  | disconnectOp (addr : SocketAddr)
deriving DecidableEq, Repr

/-- Apply one registry operation. -/
def applyOp (genesis : Nat) (own_ip : SocketAddr) (st : ClientState) :
    RegistryOp → ClientState
  | .handshake inp => (perform_handshake genesis own_ip st inp).state
  | .disconnectOp addr => handle_disconnect st addr

/-- Run a sequence of registry operations from a given state. -/
def runOps (genesis : Nat) (own_ip : SocketAddr) (st : ClientState)
    (ops : List RegistryOp) : ClientState :=
  ops.foldl (applyOp genesis own_ip) st

/-- Consistency of the peer registry: both maps have duplicate-free keys,
every connected→listening entry is mirrored by a listening→peer entry whose
recorded connected address points back, every peer entry is mirrored in the
address map, and the two maps have equal size. -/
def RegInv (st : ClientState) : Prop :=
  (keysA st.address_map).Nodup ∧ (keysA st.peers).Nodup ∧
  (∀ c l, lookupA c st.address_map = some l →
    ∃ p, lookupA l st.peers = some p ∧ p.connected_addr = c) ∧
  (∀ l p, lookupA l st.peers = some p →
    lookupA p.connected_addr st.address_map = some l) ∧
  st.address_map.length = st.peers.length

/-! ### The inbound frame codec (crawler/src/crawler.rs, read_message) -/

/-- A wrapper type for inbound messages (enum InboundMessage). -/
inductive InboundMessage where
  | handled (m : ClientMessage)
  | unhandled (id : Nat)
deriving DecidableEq, Repr

/-- The result of one read_message call: `ok none` is the incomplete
marker Ok(None), `ok (some _)` a parsed or discarded frame, `ioError` an
Err return, and `panicked` a Rust panic (out-of-bounds slice). -/
inductive ReadOutcome where
  | ok (m : Option InboundMessage)
  | ioError (e : IOErr)
  | panicked
deriving DecidableEq, Repr

/-- Reading::read_message for Crawler, as a function of the available
inbound bytes; it returns the outcome together with the bytes left in the
stream. `rbs` is the READ_BUFFER_SIZE constant (the crawler's constants
module is outside this repository slice, so the buffer size stays a
parameter). A `reader.read(&mut buf[..n])` call is modelled as taking
`min n` available bytes off the stream; the buffer is zero-initialized, so
when only 2 or 3 bytes of the length prefix arrive the missing high bytes
read as zero, which `fromLE` of the short prefix already gives. The
`len as u64 - 2` / `len - 2` subtractions wrap (release profile), and the
slice `buf[2..][..len - 2]` panics when it falls outside the buffer. -/
def read_message (rbs : Nat) (s : List Nat) : ReadOutcome × List Nat :=
  -- Read the length of the inbound message.
  let read_len := min 4 s.length
  if read_len < 2 then (.ok none, s.drop read_len)
  else
    -- Read the message's length.
    let len := fromLE (s.take 4)
    let s1 := s.drop read_len
    -- Only read the message ID first.
    let read_len2 := min 2 s1.length
    if read_len2 < 2 then (.ok none, s1.drop read_len2)
    else
      -- A little-endian u16 decode of 2 bytes; it cannot fail, so the
      -- map_err(InvalidData) on it never fires.
      let message_id := fromLE (s1.take 2)
      let s2 := s1.drop 2
      -- Discard unwanted messages and those longer than the buffer's capacity.
      if !(ACCEPTED_MESSAGE_IDS.contains message_id) || rbs < len then
        -- Advance the reader to discard the unwanted bytes (len as u64 - 2,
        -- wrapping below 2).
        let d := (len + 2 ^ 64 - 2) % 2 ^ 64
        let consumed := min d s2.length
        if consumed ≠ d then (.ok none, s2.drop consumed)
        else (.ok (some (.unhandled message_id)), s2.drop d)
      else
        -- Read the remaining number of bytes indicated by the length
        -- prefix, into buf[2..][..len - 2]; the usize subtraction wraps,
        -- and the slice panics if it exceeds the buffer.
        let idx := (len + 2 ^ 64 - 2) % 2 ^ 64
        if 2 + idx ≤ rbs then
          let read_len3 := min idx s2.length
          if read_len3 ≠ idx then (.ok none, s2.drop read_len3)
          else
            -- Only deserialize the desired messages, from buf[..len]
            -- (the 2 ID bytes followed by the body just read).
            match ClientMessage.deserialize (s1.take 2 ++ s2.take idx) with
            | some msg => (.ok (some (.handled msg)), s2.drop idx)
            | none => (.ioError .invalidData, s2.drop idx)
        else (.panicked, s2)

/-! ### The known-network graph and the message handlers
(crawler/src/crawler.rs; the KnownNetwork type itself lives in the
crawler's known_network module, outside this repository slice, and is
modelled from the spec) -/

/-- Modelled from the spec: the per-node metadata of a KnownNode; the
timestamp fields are abstracted away (no claim under verification mentions
them), keeping the fields the handlers write: `state` is present only after
at least one Ping has been received. -/
structure KnownNodeMeta where
  state : Option StateT
  node_type : Option NodeType
  version : Option Nat
  height : Option Nat
deriving DecidableEq, Repr

/-- A freshly rumored node: no state, no metadata. -/
def KnownNodeMeta.unknown : KnownNodeMeta := ⟨none, none, none, none⟩

/-- Modelled from the spec: the known-network graph — nodes keyed by
listening address and directed edges (source, target), duplicate-free. -/
structure KnownNetwork where
  nodes : List (SocketAddr × KnownNodeMeta)
  connections : List (SocketAddr × SocketAddr)
deriving DecidableEq, Repr

/-- Modelled from the spec: KnownNetwork::received_peers — for each
reported peer q, assert the edge source → q and ensure a KnownNode entry
for q exists (stateless when new); a repeat report only refreshes
last_seen, which is abstracted away. -/
def received_peers (net : KnownNetwork) (source : SocketAddr)
    (peers : List SocketAddr) : KnownNetwork :=
  peers.foldl
    (fun n q =>
      { nodes :=
          if containsA q n.nodes then n.nodes
          else (q, KnownNodeMeta.unknown) :: n.nodes,
        connections :=
          if (source, q) ∈ n.connections then n.connections
          else (source, q) :: n.connections })
    net

/-- Modelled from the spec: KnownNetwork::received_ping — upsert the node,
refresh it, and set its state together with the reported metadata. -/
def received_ping (net : KnownNetwork) (addr : SocketAddr) (nt : NodeType)
    (version : Nat) (status : StateT) (height : Nat) : KnownNetwork :=
  { net with
      nodes := insertA addr ⟨some status, some nt, some version, some height⟩
        net.nodes }

/-- Modelled from the spec: rand's IteratorRandom::choose_multiple (an
external collaborator of the crawler): keep the first `amount` elements as
the reservoir; then, for each further element (at enumeration index `i`
past the reservoir), draw `j = rng i % (i + 1 + amount)` and overwrite slot
`j` when it lands inside the reservoir. The generator is abstracted as the
function `rng` giving the raw draw of each step. This is the per-element
step: overwrite a random reservoir slot when the draw lands inside it. -/
def cmStep {α : Type} (rng : Nat → Nat) (amount : Nat)
    (acc : List α × Nat) (x : α) : List α × Nat :=
  let j := rng acc.2 % (acc.2 + 1 + amount)
  (if j < amount then acc.1.set j x else acc.1, acc.2 + 1)

/-- Modelled from the spec: rand's IteratorRandom::choose_multiple — keep
the first `amount` elements as the reservoir, then run `cmStep` over the
remaining elements. -/
def chooseMultiple {α : Type} (rng : Nat → Nat) (amount : Nat) (l : List α) :
    List α :=
  let reservoir := l.take amount
  if reservoir.length = amount then
    ((l.drop amount).foldl (cmStep rng amount) (reservoir, 0)).1
  else reservoir

/-- Crawler::is_connected: the transport knows connecting and connected
(ephemeral) addresses — abstracted as the predicate `conn` — and the peers
map takes care of listening addresses. -/
def is_connected (conn : SocketAddr → Bool) (st : ClientState)
    (addr : SocketAddr) : Bool :=
  conn addr || containsA addr st.peers

/-- Crawler::process_peer_request: answer with a PeerResponse holding a
random sample of SHARED_PEER_COUNT known-network nodes whose state is
known (the constant lives outside this repository slice and stays a
parameter). The returned message is the one passed to
send_direct_message. -/
def process_peer_request (net : KnownNetwork) (rng : Nat → Nat)
    (shared_peer_count : Nat) : ClientMessage :=
  let peers := chooseMultiple rng shared_peer_count
    ((net.nodes.filter (fun p => p.2.state.isSome)).map Prod.fst)
  ClientMessage.peerResponse peers

/-- Crawler::process_peer_response: drop our own listening address from
the received list, merge the rest into the known network when the source's
listening address is known, and return the addresses a dial task is
spawned for (those not connected for which should_be_connected_to — a
KnownNetwork policy outside this repository slice, abstracted as `sbc` —
holds). -/
def process_peer_response (own_listening : SocketAddr) (st : ClientState)
    (conn sbc : SocketAddr → Bool) (net : KnownNetwork)
    (source : SocketAddr) (peer_addrs : List SocketAddr) :
    KnownNetwork × List SocketAddr :=
  let filtered := peer_addrs.filter (fun addr => own_listening ≠ addr)
  let net1 :=
    match get_peer_listening_addr st source with
    | some listening_addr => received_peers net listening_addr filtered
    | none => net
  (net1, filtered.filter (fun a => !(is_connected conn st a) && sbc a))

/-- Crawler::process_ping: update the known network when the source's
listening address is known, and reply with the constant Pong (carrying the
genesis block locators, abstracted as a number). -/
def process_ping (st : ClientState) (net : KnownNetwork)
    (source : SocketAddr) (node_type : NodeType) (version : Nat)
    (status : StateT) (block_height : Nat) (genesis_locators : Nat) :
    KnownNetwork × ClientMessage :=
  let net1 :=
    match get_peer_listening_addr st source with
    | some listening_addr =>
      received_ping net listening_addr node_type version status block_height
    | none => net
  (net1, ClientMessage.pong none genesis_locators)

/-- One iteration of the Crawler::update_peers loop body, reduced to the
dial decision: the policy sets addrs_to_disconnect / addrs_to_connect come
from KnownNetwork (outside this repository slice) and are taken as inputs;
the returned list is the set of addresses a dial task is spawned for —
addrs_to_connect filtered against addrs_to_disconnect, sampled down to
NUM_CONCURRENT_CONNECTION_ATTEMPTS (`num_attempts`), and kept only when
is_connected is false at spawn time. -/
def update_peers_dials (rng : Nat → Nat) (num_attempts : Nat)
    (addrs_to_disconnect addrs_to_connect : List SocketAddr)
    (conn : SocketAddr → Bool) (st : ClientState) : List SocketAddr :=
  (chooseMultiple rng num_attempts
      (addrs_to_connect.filter (fun a => !(addrs_to_disconnect.contains a)))
    ).filter (fun a => !(is_connected conn st a))

/-! ## Theorems

Helper lemmas on the byte encoding and the association-list operations,
followed by one theorem per claim (with witnesses / counterexamples). -/

@[simp] theorem toLE_length (w n : Nat) : (toLE w n).length = w := by
  induction w generalizing n with
  | zero => rfl
  | succ w ih => simp [toLE, ih]

theorem fromLE_toLE (w n : Nat) : fromLE (toLE w n) = n % 256 ^ w := by
  induction w generalizing n with
  | zero => simp [toLE, fromLE, Nat.mod_one]
  | succ w ih =>
    simp only [toLE, fromLE, ih]
    have hbc : n % (256 * 256 ^ w) = 256 * (n / 256 % 256 ^ w) + n % 256 := by
      conv_lhs => rw [← Nat.div_add_mod (n % (256 * 256 ^ w)) 256]
      rw [Nat.mod_mul_right_div_self, Nat.mod_mod_of_dvd _ ⟨256 ^ w, rfl⟩]
    rw [Nat.pow_succ, Nat.mul_comm (256 ^ w) 256, hbc]
    omega

theorem fromLE_toLE_of_lt {w n : Nat} (h : n < 256 ^ w) :
    fromLE (toLE w n) = n := by
  rw [fromLE_toLE, Nat.mod_eq_of_lt h]

theorem pN_toLE (w n : Nat) (rest : List Nat) :
    pN w (toLE w n ++ rest) = some (n % 256 ^ w, rest) := by
  simp [pN, List.take_left' (toLE_length w n), List.drop_left' (toLE_length w n),
    fromLE_toLE]

theorem pN_toLE_of_lt {w n : Nat} {rest : List Nat} (h : n < 256 ^ w) :
    pN w (toLE w n ++ rest) = some (n, rest) := by
  rw [pN_toLE, Nat.mod_eq_of_lt h]

theorem pN_toLE_nil {w n : Nat} (h : n < 256 ^ w) :
    pN w (toLE w n) = some (n, []) := by
  rw [← List.append_nil (toLE w n), pN_toLE_of_lt h]

section AssocLemmas

variable {α β : Type} [DecidableEq α]

theorem containsA_eq_false_iff {k : α} {l : List (α × β)} :
    containsA k l = false ↔ lookupA k l = none := by
  unfold containsA
  cases lookupA k l <;> simp

theorem containsA_of_lookupA {k : α} {v : β} {l : List (α × β)}
    (h : lookupA k l = some v) : containsA k l = true := by
  simp [containsA, h]

theorem eraseA_of_not_contains {k : α} {l : List (α × β)}
    (h : containsA k l = false) : eraseA k l = l := by
  induction l with
  | nil => rfl
  | cons hd t ih =>
    obtain ⟨k', v⟩ := hd
    simp only [containsA, lookupA] at h
    by_cases hk : k' = k
    · simp [hk] at h
    · simp only [eraseA, if_neg hk]
      rw [ih]
      simpa [containsA, lookupA, hk] using h

theorem lookupA_eraseA_ne {k k' : α} {l : List (α × β)} (h : k' ≠ k) :
    lookupA k' (eraseA k l) = lookupA k' l := by
  induction l with
  | nil => rfl
  | cons hd t ih =>
    obtain ⟨k₀, v⟩ := hd
    by_cases hk : k₀ = k
    · simp only [eraseA, if_pos hk, lookupA]
      rw [if_neg (fun hc => h (hc.symm.trans hk))]
    · simp only [eraseA, if_neg hk, lookupA]
      by_cases hk' : k₀ = k'
      · rw [if_pos hk', if_pos hk']
      · rw [if_neg hk', if_neg hk', ih]

theorem lookupA_eq_none_of_not_mem {k : α} {l : List (α × β)}
    (h : k ∉ keysA l) : lookupA k l = none := by
  induction l with
  | nil => rfl
  | cons hd t ih =>
    obtain ⟨k₀, v⟩ := hd
    simp only [keysA, List.map_cons, List.mem_cons, not_or] at h
    simp only [lookupA, if_neg (fun hc : k₀ = k => h.1 hc.symm)]
    exact ih (by simpa [keysA] using h.2)

theorem mem_keysA_of_lookupA {k : α} {v : β} {l : List (α × β)}
    (h : lookupA k l = some v) : k ∈ keysA l := by
  by_contra hmem
  rw [lookupA_eq_none_of_not_mem hmem] at h
  exact Option.noConfusion h

theorem not_mem_keysA_eraseA_self {k : α} {l : List (α × β)}
    (hnd : (keysA l).Nodup) : k ∉ keysA (eraseA k l) := by
  induction l with
  | nil => simp [eraseA, keysA]
  | cons hd t ih =>
    obtain ⟨k₀, v⟩ := hd
    simp only [keysA, List.map_cons, List.nodup_cons] at hnd
    by_cases hk : k₀ = k
    · subst hk
      simp only [eraseA, if_pos rfl]
      exact fun hm => hnd.1 (by simpa [keysA] using hm)
    · simp only [eraseA, if_neg hk, keysA, List.map_cons, List.mem_cons, not_or]
      exact ⟨fun hc => hk hc.symm, ih hnd.2⟩

theorem lookupA_eraseA_self {k : α} {l : List (α × β)}
    (hnd : (keysA l).Nodup) : lookupA k (eraseA k l) = none :=
  lookupA_eq_none_of_not_mem (not_mem_keysA_eraseA_self hnd)

@[simp] theorem lookupA_insertA_self (k : α) (v : β) (l : List (α × β)) :
    lookupA k (insertA k v l) = some v := by
  simp [insertA, lookupA]

theorem lookupA_insertA_ne {k k' : α} (v : β) {l : List (α × β)} (h : k' ≠ k) :
    lookupA k' (insertA k v l) = lookupA k' l := by
  simp only [insertA, lookupA]
  rw [if_neg (fun hc => h hc.symm)]
  exact lookupA_eraseA_ne h

theorem mem_keysA_of_mem_eraseA {a k : α} {l : List (α × β)}
    (h : a ∈ keysA (eraseA k l)) : a ∈ keysA l := by
  induction l with
  | nil => exact h
  | cons hd t ih =>
    obtain ⟨k₀, v⟩ := hd
    by_cases hk : k₀ = k
    · simp only [eraseA, if_pos hk] at h
      exact List.mem_cons_of_mem _ h
    · simp only [eraseA, if_neg hk, keysA, List.map_cons, List.mem_cons] at h ⊢
      exact h.elim Or.inl (fun hm => Or.inr (ih hm))

theorem keysA_eraseA_nodup {k : α} {l : List (α × β)}
    (h : (keysA l).Nodup) : (keysA (eraseA k l)).Nodup := by
  induction l with
  | nil => exact h
  | cons hd t ih =>
    obtain ⟨k₀, v⟩ := hd
    simp only [keysA, List.map_cons, List.nodup_cons] at h
    by_cases hk : k₀ = k
    · simpa [eraseA, hk, keysA] using h.2
    · simp only [eraseA, if_neg hk, keysA, List.map_cons, List.nodup_cons]
      exact ⟨fun hmem => h.1 (mem_keysA_of_mem_eraseA hmem), ih h.2⟩

theorem length_eraseA_of_contains {k : α} {l : List (α × β)}
    (h : containsA k l = true) : (eraseA k l).length + 1 = l.length := by
  induction l with
  | nil => simp [containsA, lookupA] at h
  | cons hd t ih =>
    obtain ⟨k₀, v⟩ := hd
    by_cases hk : k₀ = k
    · simp [eraseA, hk]
    · simp only [containsA, lookupA, if_neg hk] at h
      simp only [eraseA, if_neg hk, List.length_cons]
      rw [ih h]

end AssocLemmas

/-! ### Evaluation of read_message on a framed stream -/

/-- Evaluation of read_message on a stream starting with a full 4-byte
length prefix decoding to `L` and a 2-byte ID decoding to `id`: the length
and ID reads always complete, and the function proceeds to the discard,
deserialize or panic branch on the remaining bytes. -/
theorem read_message_frame (rbs L id : Nat) (rest : List Nat)
    (hL32 : L < 2 ^ 32) (hid : id < 2 ^ 16) :
    read_message rbs (toLE 4 L ++ toLE 2 id ++ rest) =
      if !(ACCEPTED_MESSAGE_IDS.contains id) || rbs < L then
        let d := (L + 2 ^ 64 - 2) % 2 ^ 64
        let consumed := min d rest.length
        if consumed ≠ d then (.ok none, rest.drop consumed)
        else (.ok (some (.unhandled id)), rest.drop d)
      else
        let idx := (L + 2 ^ 64 - 2) % 2 ^ 64
        if 2 + idx ≤ rbs then
          let read_len3 := min idx rest.length
          if read_len3 ≠ idx then (.ok none, rest.drop read_len3)
          else
            match ClientMessage.deserialize (toLE 2 id ++ rest.take idx) with
            | some msg => (.ok (some (.handled msg)), rest.drop idx)
            | none => (.ioError .invalidData, rest.drop idx)
        else (.panicked, rest) := by
  have hmin : min 4 (toLE 4 L ++ (toLE 2 id ++ rest)).length = 4 := by
    simp
  have hdrop : (toLE 4 L ++ (toLE 2 id ++ rest)).drop 4 = toLE 2 id ++ rest :=
    List.drop_left' (toLE_length 4 L)
  have htake2 : (toLE 2 id ++ rest).take 2 = toLE 2 id :=
    List.take_left' (toLE_length 2 id)
  have hdrop2 : (toLE 2 id ++ rest).drop 2 = rest :=
    List.drop_left' (toLE_length 2 id)
  have hfL : fromLE ((toLE 4 L ++ (toLE 2 id ++ rest)).take 4) = L := by
    rw [List.take_left' (toLE_length 4 L),
      fromLE_toLE_of_lt (by norm_num at hL32 ⊢; omega)]
  have hfid : fromLE ((toLE 2 id ++ rest).take 2) = id := by
    rw [htake2, fromLE_toLE_of_lt (by norm_num at hid ⊢; omega)]
  unfold read_message
  rw [List.append_assoc]
  simp only [hmin, hdrop, hfL, hfid, htake2, hdrop2]
  rw [if_neg (by omega)]
  have h2len : (toLE 2 id ++ rest).length = 2 + rest.length := by simp
  have hfid2 : fromLE (toLE 2 id) = id :=
    fromLE_toLE_of_lt (by norm_num at hid ⊢; omega)
  rw [if_neg (by rw [h2len]; omega), hfid2]

/-- C2: for every inbound frame whose 4-byte length prefix decodes to L
(with L ≥ 2, as the claim's count of L-2 remaining bytes presupposes) and
whose 2-byte message ID is either not in the accepted set or whose L
exceeds the read buffer size, read_message consumes exactly L-2 further
bytes — L bytes after the length prefix in total — and returns
Unhandled(id); when fewer than L-2 bytes are available it returns the
incomplete marker Ok(None). -/
theorem c2_rejected_frame_discards_exactly (rbs L id : Nat) (rest : List Nat)
    (hL2 : 2 ≤ L) (hL32 : L < 2 ^ 32) (hid : id < 2 ^ 16)
    (hrej : ACCEPTED_MESSAGE_IDS.contains id = false ∨ rbs < L) :
    (L - 2 ≤ rest.length →
      read_message rbs (toLE 4 L ++ toLE 2 id ++ rest) =
        (.ok (some (.unhandled id)), rest.drop (L - 2))) ∧
    (rest.length < L - 2 →
      read_message rbs (toLE 4 L ++ toLE 2 id ++ rest) = (.ok none, [])) := by
  have hd : (L + 2 ^ 64 - 2) % 2 ^ 64 = L - 2 := by omega
  rw [read_message_frame rbs L id rest hL32 hid]
  have hcond : (!(ACCEPTED_MESSAGE_IDS.contains id) || decide (rbs < L)) = true := by
    rcases hrej with h | h
    · rw [h]; rfl
    · simp [h]
  rw [if_pos hcond]
  simp only [hd]
  constructor
  · intro hge
    rw [Nat.min_eq_left hge, if_neg (by omega)]
  · intro hlt
    rw [Nat.min_eq_right (Nat.le_of_lt hlt), if_pos (by omega),
      List.drop_length]

/-- C2 witness: a frame with L = 5 and the unaccepted ID 0xFFFE, once with
3 body bytes followed by 2 further bytes in the stream and once with only
2 body bytes available. -/
theorem c2_witness :
    (2 ≤ 5 ∧ 5 < 2 ^ 32 ∧ 65534 < 2 ^ 16 ∧
      ACCEPTED_MESSAGE_IDS.contains 65534 = false) ∧
    read_message 1024 (toLE 4 5 ++ toLE 2 65534 ++ [9, 9, 9, 7, 7]) =
      (.ok (some (.unhandled 65534)), [7, 7]) ∧
    read_message 1024 (toLE 4 5 ++ toLE 2 65534 ++ [9, 9]) = (.ok none, []) :=
  ⟨by decide, by
    have h := (c2_rejected_frame_discards_exactly 1024 5 65534 [9, 9, 9, 7, 7]
      (by decide) (by decide) (by decide) (Or.inl (by decide))).1 (by decide)
    simpa using h, by
    have h := (c2_rejected_frame_discards_exactly 1024 5 65534 [9, 9]
      (by decide) (by decide) (by decide) (Or.inl (by decide))).2 (by decide)
    simpa using h⟩

/-- C9 evidence: a frame whose length prefix decodes to L = 0 with the
accepted ID 4 (Disconnect) drives read_message into the wrapping
`len - 2` subtraction and the out-of-range slice `buf[2..][..len - 2]`,
i.e. a panic, for every buffer size below 2^64 — the code does not take a
discard or error path there. -/
theorem c9_read_message_panics (rbs : Nat) (h64 : rbs < 2 ^ 64) :
    read_message rbs [0, 0, 0, 0, 4, 0] = (.panicked, []) := by
  have he : ([0, 0, 0, 0, 4, 0] : List Nat) = toLE 4 0 ++ toLE 2 4 ++ [] := by
    decide
  rw [he, read_message_frame rbs 0 4 [] (by norm_num) (by norm_num)]
  rw [if_neg (by simp [ACCEPTED_MESSAGE_IDS])]
  rw [if_neg (by omega)]

/-- C9 witness: the panic at the concrete buffer size 1024. -/
theorem c9_witness :
    1024 < 2 ^ 64 ∧
    read_message 1024 [0, 0, 0, 0, 4, 0] = (.panicked, []) :=
  ⟨by decide, c9_read_message_panics 1024 (by decide)⟩

/-! ### Serialization roundtrip -/

/-- Decoding a node-type byte undoes encoding. -/
theorem nodeTypeByte_roundtrip (nt : NodeType) :
    NodeType.ofByte? nt.toByte = some nt := by
  cases nt <;> rfl

/-- Decoding a node-state byte undoes encoding. -/
theorem stateByte_roundtrip (st : StateT) :
    StateT.ofByte? st.toByte = some st := by
  cases st <;> rfl

/-- Decoding a fork-flag byte undoes encoding. -/
theorem forkOfByte_forkByte (f : Option Bool) :
    forkOfByte? (forkByte f) = some f := by
  rcases f with _ | b
  · rfl
  · cases b <;> rfl

/-- Parsing the concatenated wire forms of a list of addresses returns the
list. -/
theorem pAddrs_roundtrip (addrs : List SocketAddr) (rest : List Nat)
    (h : ∀ a ∈ addrs, a.ip < 2 ^ 32 ∧ a.port < 2 ^ 16) :
    pAddrs addrs.length ((addrs.map SocketAddr.toBytes).flatten ++ rest) =
      some (addrs, rest) := by
  induction addrs with
  | nil => simp [pAddrs]
  | cons a t ih =>
    have ha := h a (List.mem_cons_self a t)
    have hip : a.ip < 256 ^ 4 := by omega
    have hport : a.port < 256 ^ 2 := by omega
    simp only [List.map_cons, List.flatten_cons, List.length_cons, pAddrs,
      SocketAddr.toBytes, List.append_assoc, pN_toLE_of_lt hip,
      pN_toLE_of_lt hport, Option.bind_eq_bind, Option.some_bind,
      ih (fun b hb => h b (List.mem_cons_of_mem _ hb))]
    rfl

/-- Modelled deserialization undoes modelled serialization on well-formed
messages. -/
theorem deserialize_serialize {m : ClientMessage} (h : m.wf) :
    ClientMessage.deserialize m.serialize = some m := by
  cases m with
  | challengeRequest v fd nt st port nonce cw =>
    obtain ⟨h1, h2, h3, h4, h5⟩ := h
    have b2 : (2:Nat) < 256 ^ 2 := by norm_num
    have bv : v < 256 ^ 4 := by omega
    have bfd : fd < 256 ^ 4 := by omega
    have bnt : nt.toByte < 256 ^ 1 := by cases nt <;> simp [NodeType.toByte]
    have bst : st.toByte < 256 ^ 1 := by cases st <;> simp [StateT.toByte]
    have bport : port < 256 ^ 2 := by omega
    have bnonce : nonce < 256 ^ 8 := by omega
    have bw : cw < 256 ^ 16 := by omega
    simp only [ClientMessage.serialize, ClientMessage.payload,
      ClientMessage.msgId, ClientMessage.deserialize,
      ClientMessage.parseChallengeRequest, List.append_assoc,
      pN_toLE_of_lt b2, pN_toLE_of_lt bv, pN_toLE_of_lt bfd, pN_toLE_of_lt bnt,
      pN_toLE_of_lt bst, pN_toLE_of_lt bport, pN_toLE_of_lt bnonce,
      pN_toLE_nil bw, nodeTypeByte_roundtrip, stateByte_roundtrip,
      Option.bind_eq_bind, Option.some_bind, List.isEmpty_nil, reduceIte]
    rfl
  | challengeResponse hdr =>
    have b2 : (3:Nat) < 256 ^ 2 := by norm_num
    have bh : hdr < 256 ^ 8 := by simp only [ClientMessage.wf] at h; omega
    simp only [ClientMessage.serialize, ClientMessage.payload,
      ClientMessage.msgId, ClientMessage.deserialize,
      ClientMessage.parseChallengeResponse, pN_toLE_of_lt b2,
      pN_toLE_nil bh, Option.bind_eq_bind, Option.some_bind, List.isEmpty_nil,
      reduceIte]
    rfl
  | disconnect r =>
    have b2 : (4:Nat) < 256 ^ 2 := by norm_num
    have br : r < 256 ^ 2 := by simp only [ClientMessage.wf] at h; omega
    simp only [ClientMessage.serialize, ClientMessage.payload,
      ClientMessage.msgId, ClientMessage.deserialize,
      ClientMessage.parseDisconnect, pN_toLE_of_lt b2,
      pN_toLE_nil br, Option.bind_eq_bind, Option.some_bind, List.isEmpty_nil,
      reduceIte]
    rfl
  | peerRequest =>
    have b2 : (5:Nat) < 256 ^ 2 := by norm_num
    simp only [ClientMessage.serialize, ClientMessage.payload,
      ClientMessage.msgId, ClientMessage.deserialize, List.append_nil,
      pN_toLE_nil b2, Option.bind_eq_bind, Option.some_bind, List.isEmpty_nil,
      reduceIte]
    rfl
  | peerResponse addrs =>
    obtain ⟨hlen, haddrs⟩ := h
    have b2 : (6:Nat) < 256 ^ 2 := by norm_num
    have bn : addrs.length < 256 ^ 8 := by omega
    have hpa : pAddrs addrs.length ((addrs.map SocketAddr.toBytes).flatten) =
        some (addrs, []) := by
      rw [← List.append_nil ((addrs.map SocketAddr.toBytes).flatten)]
      exact pAddrs_roundtrip addrs [] haddrs
    simp only [ClientMessage.serialize, ClientMessage.payload,
      ClientMessage.msgId, ClientMessage.deserialize,
      ClientMessage.parsePeerResponse, List.append_assoc,
      pN_toLE_of_lt b2, pN_toLE_of_lt bn, hpa, Option.bind_eq_bind,
      Option.some_bind, List.isEmpty_nil, reduceIte]
    rfl
  | ping v fd nt st bh hdr =>
    obtain ⟨h1, h2, h3, h4⟩ := h
    have b2 : (7:Nat) < 256 ^ 2 := by norm_num
    have bv : v < 256 ^ 4 := by omega
    have bfd : fd < 256 ^ 4 := by omega
    have bnt : nt.toByte < 256 ^ 1 := by cases nt <;> simp [NodeType.toByte]
    have bst : st.toByte < 256 ^ 1 := by cases st <;> simp [StateT.toByte]
    have bbh : bh < 256 ^ 8 := by omega
    have bhdr : hdr < 256 ^ 8 := by omega
    simp only [ClientMessage.serialize, ClientMessage.payload,
      ClientMessage.msgId, ClientMessage.deserialize,
      ClientMessage.parsePing, List.append_assoc,
      pN_toLE_of_lt b2, pN_toLE_of_lt bv, pN_toLE_of_lt bfd, pN_toLE_of_lt bnt,
      pN_toLE_of_lt bst, pN_toLE_of_lt bbh, pN_toLE_nil bhdr,
      nodeTypeByte_roundtrip, stateByte_roundtrip, Option.bind_eq_bind,
      Option.some_bind, List.isEmpty_nil, reduceIte]
    rfl
  | pong f loc =>
    have b2 : (8:Nat) < 256 ^ 2 := by norm_num
    have bf : forkByte f < 256 ^ 1 := by
      rcases f with _ | b
      · simp [forkByte]
      · cases b <;> simp [forkByte]
    have bloc : loc < 256 ^ 8 := by simp only [ClientMessage.wf] at h; omega
    simp only [ClientMessage.serialize, ClientMessage.payload,
      ClientMessage.msgId, ClientMessage.deserialize,
      ClientMessage.parsePong, List.append_assoc,
      pN_toLE_of_lt b2, pN_toLE_of_lt bf, pN_toLE_nil bloc,
      forkOfByte_forkByte, Option.bind_eq_bind, Option.some_bind,
      List.isEmpty_nil, reduceIte]
    rfl

/-- C8: every (well-formed) ClientMessage the crawler emits, serialized by
write_message — 4-byte little-endian length prefix followed by the
payload — and re-parsed by read_message, yields
Ok(Some(Handled(m))) with the original message, provided its ID is in the
accepted set and its frame fits the read buffer; the bytes following the
frame are left in the stream. -/
theorem c8_write_read_roundtrip (rbs : Nat) (m : ClientMessage)
    (extra : List Nat) (hwf : m.wf)
    (hacc : ACCEPTED_MESSAGE_IDS.contains m.msgId = true)
    (hfit : m.serialize.length ≤ rbs) (hrbs : rbs < 2 ^ 32) :
    read_message rbs (write_message m ++ extra) =
      (.ok (some (.handled m)), extra) := by
  have hL : m.serialize.length = 2 + m.payload.length := by
    simp [ClientMessage.serialize]
  rw [hL] at hfit
  have hL32 : 2 + m.payload.length < 2 ^ 32 := by omega
  have hid : m.msgId < 2 ^ 16 := by cases m <;> simp [ClientMessage.msgId]
  have hw : write_message m ++ extra =
      toLE 4 (2 + m.payload.length) ++ toLE 2 m.msgId ++
        (m.payload ++ extra) := by
    simp [write_message, ClientMessage.serialize, List.append_assoc,
      Nat.mod_eq_of_lt (show 2 + m.payload.length < 4294967296 by omega)]
  rw [hw, read_message_frame rbs (2 + m.payload.length) m.msgId _ hL32 hid]
  rw [if_neg (by rw [hacc]; simp [Nat.not_lt.mpr hfit])]
  have hidx : (2 + m.payload.length + 2 ^ 64 - 2) % 2 ^ 64 =
      m.payload.length := by
    omega
  simp only [hidx]
  rw [if_pos (by omega)]
  rw [Nat.min_eq_left (by simp [Nat.le_add_right])]
  rw [if_neg (by simp)]
  rw [List.take_left, List.drop_left]
  have hser : toLE 2 m.msgId ++ m.payload = m.serialize := rfl
  rw [hser, deserialize_serialize hwf]

/-- C8 witness: the roundtrip at a concrete PeerResponse with two stream
bytes following the frame. -/
theorem c8_witness :
    ((ClientMessage.peerResponse [⟨1, 2⟩]).wf ∧
      ACCEPTED_MESSAGE_IDS.contains
        (ClientMessage.peerResponse [⟨1, 2⟩]).msgId = true ∧
      (ClientMessage.peerResponse [⟨1, 2⟩]).serialize.length ≤ 1024 ∧
      1024 < 2 ^ 32) ∧
    read_message 1024 (write_message (.peerResponse [⟨1, 2⟩]) ++ [9, 9]) =
      (.ok (some (.handled (.peerResponse [⟨1, 2⟩]))), [9, 9]) :=
  ⟨⟨by decide, by decide, by decide, by decide⟩,
    c8_write_read_roundtrip 1024 (.peerResponse [⟨1, 2⟩]) [9, 9]
      (by decide) (by decide) (by decide) (by decide)⟩

/-! ### The registry bijection (C1) -/

theorem lookupA_isSome_of_mem_keys {α β : Type} [DecidableEq α] {k : α}
    {l : List (α × β)} (h : k ∈ keysA l) : ∃ v, lookupA k l = some v := by
  induction l with
  | nil => simp [keysA] at h
  | cons hd t ih =>
    obtain ⟨k₀, v⟩ := hd
    by_cases hk : k₀ = k
    · exact ⟨v, by simp [lookupA, hk]⟩
    · simp only [keysA, List.map_cons, List.mem_cons] at h
      rcases h with h | h
      · exact absurd h.symm hk
      · simpa [lookupA, hk] using ih h

theorem not_mem_keysA_of_lookupA_none {α β : Type} [DecidableEq α] {k : α}
    {l : List (α × β)} (h : lookupA k l = none) : k ∉ keysA l := fun hm => by
  obtain ⟨v, hv⟩ := lookupA_isSome_of_mem_keys hm
  rw [h] at hv
  exact Option.noConfusion hv

/-- The empty registry is consistent. -/
theorem RegInv_empty (n : Nat) : RegInv (ClientState.empty n) := by
  refine ⟨by simp [ClientState.empty, keysA], by simp [ClientState.empty, keysA],
    ?_, ?_, rfl⟩
  · intro c l h
    simp [ClientState.empty, lookupA] at h
  · intro l p h
    simp [ClientState.empty, lookupA] at h

/-- Inserting a fresh pair into both maps preserves consistency. -/
theorem RegInv_insert {st : ClientState} (h : RegInv st)
    {c l : SocketAddr} {p : ClientPeer}
    (hc : containsA c st.address_map = false)
    (hl : containsA l st.peers = false)
    (hp : p.connected_addr = c) :
    RegInv { st with address_map := insertA c l st.address_map,
                     peers := insertA l p st.peers } := by
  obtain ⟨hnd1, hnd2, hfwd, hbwd, hlen⟩ := h
  have hce : eraseA c st.address_map = st.address_map := eraseA_of_not_contains hc
  have hle : eraseA l st.peers = st.peers := eraseA_of_not_contains hl
  have hclook : lookupA c st.address_map = none := containsA_eq_false_iff.mp hc
  have hllook : lookupA l st.peers = none := containsA_eq_false_iff.mp hl
  refine ⟨?_, ?_, ?_, ?_, ?_⟩
  · simp only [insertA, hce, keysA, List.map_cons, List.nodup_cons]
    exact ⟨not_mem_keysA_of_lookupA_none hclook, hnd1⟩
  · simp only [insertA, hle, keysA, List.map_cons, List.nodup_cons]
    exact ⟨not_mem_keysA_of_lookupA_none hllook, hnd2⟩
  · intro c' l' hlk
    simp only [insertA, hce, lookupA] at hlk
    simp only [insertA, hle, lookupA]
    by_cases hcc : c = c'
    · rw [if_pos hcc] at hlk
      refine ⟨p, ?_, by rw [hp, hcc]⟩
      obtain rfl : l = l' := by injection hlk
      rw [if_pos rfl]
    · rw [if_neg hcc] at hlk
      obtain ⟨q, hq, hqc⟩ := hfwd c' l' hlk
      have hne : l ≠ l' := fun he => by
        rw [← he, hllook] at hq
        exact Option.noConfusion hq
      rw [if_neg hne]
      exact ⟨q, hq, hqc⟩
  · intro l' q hlk
    simp only [insertA, hle, lookupA] at hlk
    simp only [insertA, hce, lookupA]
    by_cases hll : l = l'
    · rw [if_pos hll] at hlk
      obtain rfl : p = q := by injection hlk
      rw [hp, if_pos rfl]
      rw [hll]
    · rw [if_neg hll] at hlk
      have hq := hbwd l' q hlk
      have hne : c ≠ q.connected_addr := fun he => by
        rw [← he, hclook] at hq
        exact Option.noConfusion hq
      rw [if_neg hne]
      exact hq
  · simp only [insertA, hce, hle, List.length_cons]
    rw [hlen]

/-- handle_disconnect preserves consistency. -/
theorem RegInv_disconnect {st : ClientState} (h : RegInv st)
    (d : SocketAddr) : RegInv (handle_disconnect st d) := by
  obtain ⟨hnd1, hnd2, hfwd, hbwd, hlen⟩ := h
  unfold handle_disconnect
  cases hd : lookupA d st.address_map with
  | none => exact ⟨hnd1, hnd2, hfwd, hbwd, hlen⟩
  | some l =>
    obtain ⟨pd, hpd, hpdc⟩ := hfwd d l hd
    refine ⟨keysA_eraseA_nodup hnd1, keysA_eraseA_nodup hnd2, ?_, ?_, ?_⟩
    · intro c' l' hlk
      have hcd : c' ≠ d := fun he => by
        rw [he, lookupA_eraseA_self hnd1] at hlk
        exact Option.noConfusion hlk
      rw [lookupA_eraseA_ne hcd] at hlk
      obtain ⟨q, hq, hqc⟩ := hfwd c' l' hlk
      have hne : l' ≠ l := fun he => by
        rw [he, hpd] at hq
        have hpq : pd = q := by injection hq
        rw [← hpq] at hqc
        exact hcd ((hpdc.symm.trans hqc).symm)
      rw [lookupA_eraseA_ne hne]
      exact ⟨q, hq, hqc⟩
    · intro l' q hlk
      have hll : l' ≠ l := fun he => by
        rw [he, lookupA_eraseA_self hnd2] at hlk
        exact Option.noConfusion hlk
      rw [lookupA_eraseA_ne hll] at hlk
      have hq := hbwd l' q hlk
      have hqd : q.connected_addr ≠ d := fun he => by
        rw [he, hd] at hq
        have : l = l' := by injection hq
        exact hll this.symm
      rw [lookupA_eraseA_ne hqd]
      exact hq
    · have h1 := length_eraseA_of_contains (containsA_of_lookupA hd)
      have h2 := length_eraseA_of_contains (containsA_of_lookupA hpd)
      simp only []
      omega

/-- A perform_handshake run, successful or failed, preserves consistency. -/
theorem RegInv_handshake {st : ClientState} (h : RegInv st) (g : Nat)
    (ip : SocketAddr) (inp : HandshakeInput) :
    RegInv (perform_handshake g ip st inp).state := by
  unfold perform_handshake
  dsimp only
  repeat' split
  all_goals try exact h
  rename_i hdup
  rw [Bool.not_eq_true] at hdup
  obtain ⟨h1, h2⟩ := Bool.or_eq_false_iff.mp hdup
  exact RegInv_insert h h1 h2 rfl

theorem RegInv_applyOp {st : ClientState} (h : RegInv st) (g : Nat)
    (ip : SocketAddr) (op : RegistryOp) : RegInv (applyOp g ip st op) := by
  cases op with
  | handshake inp => exact RegInv_handshake h g ip inp
  | disconnectOp a => exact RegInv_disconnect h a

theorem RegInv_runOps (g : Nat) (ip : SocketAddr) (st : ClientState)
    (ops : List RegistryOp) (h : RegInv st) : RegInv (runOps g ip st ops) := by
  induction ops generalizing st with
  | nil => exact h
  | cons op t ih => exact ih _ (RegInv_applyOp h g ip op)

/-- C1: for every sequence of handshake registrations and disconnect
cleanups applied to an initially empty registry, the two maps stay a
bijection: every connected address c in the address map points to a key of
the peers map whose record's connected_addr is c, and the maps have equal
size. -/
theorem c1_registry_bijection (genesis nonce : Nat) (own_ip : SocketAddr)
    (ops : List RegistryOp) :
    (∀ c l, lookupA c
        (runOps genesis own_ip (ClientState.empty nonce) ops).address_map =
          some l →
      ∃ p, lookupA l
          (runOps genesis own_ip (ClientState.empty nonce) ops).peers =
            some p ∧
        p.connected_addr = c) ∧
    (runOps genesis own_ip (ClientState.empty nonce) ops).address_map.length =
      (runOps genesis own_ip (ClientState.empty nonce) ops).peers.length := by
  obtain ⟨_, _, hfwd, _, hlen⟩ :=
    RegInv_runOps genesis own_ip _ ops (RegInv_empty nonce)
  exact ⟨hfwd, hlen⟩

/-! ### Handshake outcomes (C3, C4) -/

/-- C3 counterexample: with the earlier handshake stages passing, a
received Disconnect message — which is not a challenge-response carrying an
equal header — makes perform_handshake fail with NotConnected, not with
InvalidData as the claim states. -/
theorem c3_counterexample :
    (perform_handshake 99 ⟨0, 4132⟩ (ClientState.empty 7)
      ⟨⟨10, 50000⟩, some (.challengeRequest 1 2 .client .ready 4200 5 6),
        some (.disconnect 0)⟩).err = some .notConnected ∧
    some IOErr.notConnected ≠ some IOErr.invalidData := by
  exact ⟨by decide, by decide⟩

/-- C3 (amended): once the earlier handshake stages pass, the connection
is returned successfully iff the received message is a challenge-response
carrying a header equal to the local genesis header; a challenge-response
with a different header, or any message other than a Disconnect, fails with
InvalidData, while a Disconnect fails with NotConnected; on every failure
no entry is inserted into either registry map. -/
theorem c3_challenge_response_outcome (g : Nat) (ip : SocketAddr)
    (st : ClientState) (inp : HandshakeInput)
    (v fd port nonce cw : Nat) (nt : NodeType) (sst : StateT)
    (hc : containsA inp.peer_addr st.address_map = false)
    (hreq : inp.peer_request =
      some (.challengeRequest v fd nt sst port nonce cw))
    (hl : containsA ⟨inp.peer_addr.ip, port⟩ st.peers = false) :
    ((perform_handshake g ip st inp).err = none ↔
      inp.peer_response = some (.challengeResponse g)) ∧
    (∀ r, inp.peer_response = some (.disconnect r) →
      (perform_handshake g ip st inp).err = some .notConnected) ∧
    (∀ hdr, inp.peer_response = some (.challengeResponse hdr) → hdr ≠ g →
      (perform_handshake g ip st inp).err = some .invalidData) ∧
    ((∀ hdr, inp.peer_response ≠ some (.challengeResponse hdr)) →
      (∀ r, inp.peer_response ≠ some (.disconnect r)) →
      (perform_handshake g ip st inp).err = some .invalidData) ∧
    ((perform_handshake g ip st inp).err ≠ none →
      (perform_handshake g ip st inp).state = st) := by
  unfold perform_handshake
  rw [hreq]
  dsimp only
  rw [if_neg (by simp [hc]), if_neg (by simp [hl])]
  cases hresp : inp.peer_response with
  | none => simp
  | some mr =>
    cases mr with
    | challengeRequest a b c d e f gg => simp
    | challengeResponse hdr =>
      by_cases hg : hdr = g
      · subst hg
        simp [hc, hl]
      · simp [hg]
    | disconnect r => simp
    | peerRequest => simp
    | peerResponse a => simp
    | ping a b c d e f => simp
    | pong a b => simp

end Crawler

namespace Crawler

/-- C3 witness: the success-iff-equal-header part at a concrete happy-path
handshake. -/
theorem c3_witness :
    (containsA (⟨10, 50000⟩ : SocketAddr)
        (ClientState.empty 7).address_map = false ∧
      (HandshakeInput.mk ⟨10, 50000⟩
          (some (.challengeRequest 1 2 .client .ready 4200 5 6))
          (some (.challengeResponse 99))).peer_request =
        some (.challengeRequest 1 2 .client .ready 4200 5 6) ∧
      containsA (⟨10, 4200⟩ : SocketAddr) (ClientState.empty 7).peers = false) ∧
    ((perform_handshake 99 ⟨0, 4132⟩ (ClientState.empty 7)
        ⟨⟨10, 50000⟩, some (.challengeRequest 1 2 .client .ready 4200 5 6),
          some (.challengeResponse 99)⟩).err = none ↔
      (HandshakeInput.mk ⟨10, 50000⟩
          (some (.challengeRequest 1 2 .client .ready 4200 5 6))
          (some (.challengeResponse 99))).peer_response =
        some (.challengeResponse 99)) :=
  ⟨⟨by decide, by decide, by decide⟩,
    (c3_challenge_response_outcome 99 ⟨0, 4132⟩ (ClientState.empty 7)
      ⟨⟨10, 50000⟩, some (.challengeRequest 1 2 .client .ready 4200 5 6),
        some (.challengeResponse 99)⟩ 1 2 4200 5 6 .client .ready
      (by decide) (by decide) (by decide)).1⟩

/-- C4: perform_handshake fails with AlreadyExists, leaving both maps
unchanged, when the peer's connected address is already a key of the
address map (before any message is sent: sent = []), or when the advertised
listening address is already a key of the peers map after the
challenge-request is received (only the challenge request was sent). -/
theorem c4_duplicate_rejection (g : Nat) (ip : SocketAddr) (st : ClientState)
    (inp : HandshakeInput) :
    (containsA inp.peer_addr st.address_map = true →
      perform_handshake g ip st inp = ⟨st, [], some .alreadyExists⟩) ∧
    (∀ v fd nt sst port nonce cw,
      containsA inp.peer_addr st.address_map = false →
      inp.peer_request = some (.challengeRequest v fd nt sst port nonce cw) →
      containsA ⟨inp.peer_addr.ip, port⟩ st.peers = true →
      perform_handshake g ip st inp =
        ⟨st, [.challengeRequest MESSAGE_VERSION MAXIMUM_FORK_DEPTH .client
          .ready ip.port st.local_nonce 0], some .alreadyExists⟩) := by
  constructor
  · intro h
    unfold perform_handshake
    dsimp only
    rw [if_pos (by simp [h])]
  · intro v fd nt sst port nonce cw hc hreq hl
    unfold perform_handshake
    rw [hreq]
    dsimp only
    rw [if_neg (by simp [hc]), if_pos (by simp [hl])]

/-- C4 witness: both rejections at concrete registries — one already
holding the connected address, one already holding the advertised listening
address. -/
theorem c4_witness :
    (containsA (⟨10, 50000⟩ : SocketAddr)
        (ClientState.mk 7 [] [(⟨10, 50000⟩, ⟨10, 4200⟩)]).address_map = true ∧
      perform_handshake 99 ⟨0, 4132⟩
          (ClientState.mk 7 [] [(⟨10, 50000⟩, ⟨10, 4200⟩)])
          ⟨⟨10, 50000⟩, none, none⟩ =
        ⟨ClientState.mk 7 [] [(⟨10, 50000⟩, ⟨10, 4200⟩)], [],
          some .alreadyExists⟩) ∧
    (containsA (⟨10, 50000⟩ : SocketAddr)
        (ClientState.mk 7
          [(⟨10, 4200⟩, ⟨⟨9, 9⟩, 0, .client, 0, 0⟩)] []).address_map = false ∧
      containsA (⟨10, 4200⟩ : SocketAddr)
        (ClientState.mk 7
          [(⟨10, 4200⟩, ⟨⟨9, 9⟩, 0, .client, 0, 0⟩)] []).peers = true ∧
      perform_handshake 99 ⟨0, 4132⟩
          (ClientState.mk 7 [(⟨10, 4200⟩, ⟨⟨9, 9⟩, 0, .client, 0, 0⟩)] [])
          ⟨⟨10, 50000⟩,
            some (.challengeRequest 1 2 .client .ready 4200 5 6), none⟩ =
        ⟨ClientState.mk 7 [(⟨10, 4200⟩, ⟨⟨9, 9⟩, 0, .client, 0, 0⟩)] [],
          [.challengeRequest MESSAGE_VERSION MAXIMUM_FORK_DEPTH .client
            .ready 4132 7 0], some .alreadyExists⟩) :=
  ⟨⟨by decide,
    (c4_duplicate_rejection 99 ⟨0, 4132⟩
      (ClientState.mk 7 [] [(⟨10, 50000⟩, ⟨10, 4200⟩)])
      ⟨⟨10, 50000⟩, none, none⟩).1 (by decide)⟩,
   ⟨by decide, by decide,
    (c4_duplicate_rejection 99 ⟨0, 4132⟩
      (ClientState.mk 7 [(⟨10, 4200⟩, ⟨⟨9, 9⟩, 0, .client, 0, 0⟩)] [])
      ⟨⟨10, 50000⟩, some (.challengeRequest 1 2 .client .ready 4200 5 6),
        none⟩).2 1 2 .client .ready 4200 5 6 (by decide) (by decide)
      (by decide)⟩⟩

/-! ### Handler properties (C5, C6, C7, C10) -/


theorem cmFold_length {α : Type} (rng : Nat → Nat) (amount : Nat)
    (xs : List α) : ∀ (acc : List α × Nat),
    ((xs.foldl (cmStep rng amount) acc).1).length = acc.1.length := by
  induction xs with
  | nil => intro acc; rfl
  | cons x t ih =>
    intro acc
    rw [List.foldl_cons, ih]
    unfold cmStep
    dsimp only
    split <;> simp

theorem cmFold_mem {α : Type} {rng : Nat → Nat} {amount : Nat} {l : List α}
    (xs : List α) : ∀ (acc : List α × Nat),
    (∀ y ∈ acc.1, y ∈ l) → (∀ x ∈ xs, x ∈ l) →
    ∀ y ∈ (xs.foldl (cmStep rng amount) acc).1, y ∈ l := by
  induction xs with
  | nil => intro acc hacc _ y hy; exact hacc y hy
  | cons x t ih =>
    intro acc hacc hxs y hy
    rw [List.foldl_cons] at hy
    refine ih _ ?_ (fun z hz => hxs z (List.mem_cons_of_mem _ hz)) y hy
    intro z hz
    unfold cmStep at hz
    dsimp only at hz
    split at hz
    · rcases List.mem_or_eq_of_mem_set hz with h | h
      · exact hacc z h
      · exact h ▸ hxs x (List.mem_cons_self x t)
    · exact hacc z hz

theorem chooseMultiple_length {α : Type} (rng : Nat → Nat) (amount : Nat)
    (l : List α) :
    (chooseMultiple rng amount l).length = min amount l.length := by
  unfold chooseMultiple
  dsimp only
  split <;> simp [cmFold_length]

theorem chooseMultiple_mem {α : Type} (rng : Nat → Nat) (amount : Nat)
    (l : List α) : ∀ x ∈ chooseMultiple rng amount l, x ∈ l := by
  unfold chooseMultiple
  dsimp only
  split
  · exact cmFold_mem (l.drop amount) _ (fun y hy => List.mem_of_mem_take hy)
      (fun x hx => List.mem_of_mem_drop hx)
  · exact fun x hx => List.mem_of_mem_take hx

/-- C5: for every inbound PeerRequest, process_peer_request emits a
PeerResponse whose address list has at most SHARED_PEER_COUNT elements,
each of them a known-network node whose state field is Some; no node with
state = None appears. -/
theorem c5_peer_request_sample (net : KnownNetwork) (rng : Nat → Nat)
    (spc : Nat) :
    ∃ addrs,
      process_peer_request net rng spc = ClientMessage.peerResponse addrs ∧
      addrs.length ≤ spc ∧
      (∀ a ∈ addrs, ∃ meta, (a, meta) ∈ net.nodes ∧ meta.state.isSome = true) := by
  refine ⟨_, rfl, ?_, ?_⟩
  · rw [chooseMultiple_length]
    exact Nat.min_le_left _ _
  · intro a ha
    have hmem := chooseMultiple_mem _ _ _ a ha
    obtain ⟨p, hp, hpa⟩ := List.mem_map.mp hmem
    have hf := List.mem_filter.mp hp
    exact ⟨p.2, by rw [← hpa]; exact hf.1, by simpa using hf.2⟩



/-- C7: in every iteration of the update_peers loop, the set of addresses
a dial task is spawned for is disjoint from addrs_to_disconnect of the same
iteration, has at most NUM_CONCURRENT_CONNECTION_ATTEMPTS elements, and
contains only addresses with is_connected false at spawn time. -/
theorem c7_dial_set (rng : Nat → Nat) (k : Nat)
    (addrs_to_disconnect addrs_to_connect : List SocketAddr)
    (conn : SocketAddr → Bool) (st : ClientState) :
    (∀ a ∈ update_peers_dials rng k addrs_to_disconnect addrs_to_connect
        conn st, a ∉ addrs_to_disconnect) ∧
    (update_peers_dials rng k addrs_to_disconnect addrs_to_connect
      conn st).length ≤ k ∧
    (∀ a ∈ update_peers_dials rng k addrs_to_disconnect addrs_to_connect
        conn st, is_connected conn st a = false) := by
  refine ⟨?_, ?_, ?_⟩
  · intro a ha
    unfold update_peers_dials at ha
    have h1 := (List.mem_filter.mp ha).1
    have h2 := chooseMultiple_mem _ _ _ a h1
    have h3 := (List.mem_filter.mp h2).2
    simpa using h3
  · calc (update_peers_dials rng k addrs_to_disconnect addrs_to_connect
          conn st).length
        ≤ (chooseMultiple rng k (addrs_to_connect.filter
            (fun a => !(addrs_to_disconnect.contains a)))).length :=
          List.length_filter_le _ _
      _ ≤ k := by rw [chooseMultiple_length]; exact Nat.min_le_left _ _
  · intro a ha
    have h := (List.mem_filter.mp ha).2
    simpa using h

theorem received_peers_step (net : KnownNetwork) (source q : SocketAddr)
    (t : List SocketAddr) :
    received_peers net source (q :: t) =
      received_peers
        ⟨if containsA q net.nodes then net.nodes
          else (q, KnownNodeMeta.unknown) :: net.nodes,
         if (source, q) ∈ net.connections then net.connections
          else (source, q) :: net.connections⟩ source t := rfl

theorem received_peers_nodes_mem {source : SocketAddr}
    (ps : List SocketAddr) (net : KnownNetwork) {a : SocketAddr}
    (h : a ∈ keysA (received_peers net source ps).nodes) :
    a ∈ keysA net.nodes ∨ a ∈ ps := by
  induction ps generalizing net with
  | nil => exact Or.inl h
  | cons q t ih =>
    rw [received_peers_step] at h
    rcases ih _ h with h1 | h1
    · by_cases hq : containsA q net.nodes
      · rw [if_pos hq] at h1
        exact Or.inl h1
      · rw [if_neg hq] at h1
        simp only [keysA, List.map_cons, List.mem_cons] at h1
        rcases h1 with h1 | h1
        · exact Or.inr (h1 ▸ List.mem_cons_self q t)
        · exact Or.inl h1
    · exact Or.inr (List.mem_cons_of_mem _ h1)

theorem received_peers_conns_mem {source : SocketAddr}
    (ps : List SocketAddr) (net : KnownNetwork)
    {e : SocketAddr × SocketAddr}
    (h : e ∈ (received_peers net source ps).connections) :
    e ∈ net.connections ∨ (e.1 = source ∧ e.2 ∈ ps) := by
  induction ps generalizing net with
  | nil => exact Or.inl h
  | cons q t ih =>
    rw [received_peers_step] at h
    rcases ih _ h with h1 | h1
    · by_cases hq : (source, q) ∈ net.connections
      · rw [if_pos hq] at h1
        exact Or.inl h1
      · rw [if_neg hq] at h1
        rcases List.mem_cons.mp h1 with h1 | h1
        · refine Or.inr ⟨by rw [h1], by rw [h1]; exact List.mem_cons_self q t⟩
        · exact Or.inl h1
    · exact Or.inr ⟨h1.1, List.mem_cons_of_mem _ h1.2⟩



/-- C6: process_peer_response removes the crawler's own listening address
from the received list before any further processing; only the remaining
addresses are merged or considered for dialing, so the own listening
address never becomes a KnownNode key, an endpoint of a KnownConnection, or
a dial target — provided it was absent before and the source's registry
entry does not map to it. -/
theorem c6_no_self_in_merge (own_listening : SocketAddr) (st : ClientState)
    (conn sbc : SocketAddr → Bool) (net : KnownNetwork)
    (source : SocketAddr) (peer_addrs : List SocketAddr)
    (hnod : own_listening ∉ keysA net.nodes)
    (hconn : ∀ e ∈ net.connections, e.1 ≠ own_listening ∧ e.2 ≠ own_listening)
    (hsrc : get_peer_listening_addr st source ≠ some own_listening) :
    own_listening ∉ keysA
      (process_peer_response own_listening st conn sbc net source
        peer_addrs).1.nodes ∧
    (∀ e ∈ (process_peer_response own_listening st conn sbc net source
        peer_addrs).1.connections,
      e.1 ≠ own_listening ∧ e.2 ≠ own_listening) ∧
    own_listening ∉ (process_peer_response own_listening st conn sbc net
      source peer_addrs).2 ∧
    (∀ a ∈ (process_peer_response own_listening st conn sbc net source
        peer_addrs).2, a ∈ peer_addrs ∧ a ≠ own_listening) := by
  have hfilt : ∀ a ∈ peer_addrs.filter (fun a => own_listening ≠ a),
      a ∈ peer_addrs ∧ a ≠ own_listening := by
    intro a ha
    have h := List.mem_filter.mp ha
    exact ⟨h.1, fun he => by simp [he] at h⟩
  unfold process_peer_response
  dsimp only
  cases hsl : get_peer_listening_addr st source with
  | none =>
    refine ⟨hnod, hconn, ?_, ?_⟩
    · intro hmem
      have h := hfilt _ (List.mem_filter.mp hmem).1
      exact h.2 rfl
    · intro a ha
      exact hfilt _ (List.mem_filter.mp ha).1
  | some l =>
    have hlo : l ≠ own_listening := fun he => hsrc (by rw [hsl, he])
    refine ⟨?_, ?_, ?_, ?_⟩
    · intro hmem
      rcases received_peers_nodes_mem _ _ hmem with h | h
      · exact hnod h
      · exact (hfilt _ h).2 rfl
    · intro e he
      rcases received_peers_conns_mem _ _ he with h | h
      · exact hconn e h
      · exact ⟨h.1 ▸ hlo, (hfilt _ h.2).2⟩
    · intro hmem
      have h := hfilt _ (List.mem_filter.mp hmem).1
      exact h.2 rfl
    · intro a ha
      exact hfilt _ (List.mem_filter.mp ha).1

/-- C6 witness: a concrete peer response containing the crawler's own
address, against an empty graph and registry. -/
theorem c6_witness :
    ((⟨1, 1⟩ : SocketAddr) ∉ keysA (KnownNetwork.mk [] []).nodes ∧
      get_peer_listening_addr (ClientState.empty 7) ⟨2, 2⟩ ≠
        some ⟨1, 1⟩) ∧
    ((⟨1, 1⟩ : SocketAddr) ∉ keysA
      (process_peer_response ⟨1, 1⟩ (ClientState.empty 7) (fun _ => false)
        (fun _ => true) (KnownNetwork.mk [] []) ⟨2, 2⟩
        [⟨1, 1⟩, ⟨3, 3⟩]).1.nodes ∧
    (⟨1, 1⟩ : SocketAddr) ∉
      (process_peer_response ⟨1, 1⟩ (ClientState.empty 7) (fun _ => false)
        (fun _ => true) (KnownNetwork.mk [] []) ⟨2, 2⟩
        [⟨1, 1⟩, ⟨3, 3⟩]).2) := by
  refine ⟨⟨by simp [keysA], by decide⟩, ?_, ?_⟩
  · exact (c6_no_self_in_merge ⟨1, 1⟩ (ClientState.empty 7) (fun _ => false)
      (fun _ => true) (KnownNetwork.mk [] []) ⟨2, 2⟩ [⟨1, 1⟩, ⟨3, 3⟩]
      (by simp [keysA]) (by simp) (by decide)).1
  · exact (c6_no_self_in_merge ⟨1, 1⟩ (ClientState.empty 7) (fun _ => false)
      (fun _ => true) (KnownNetwork.mk [] []) ⟨2, 2⟩ [⟨1, 1⟩, ⟨3, 3⟩]
      (by simp [keysA]) (by simp) (by decide)).2.2.1

/-- C10: when the source address has no listening-address mapping in the
registry, process_ping leaves the known network unchanged while still
answering with the constant Pong, and process_peer_response leaves the
known network unchanged while still producing the usual dial candidates
from the filtered address list. -/
theorem c10_unknown_source_frame_effect (st : ClientState)
    (net : KnownNetwork) (source : SocketAddr) (nt : NodeType)
    (ver : Nat) (sst : StateT) (height glocators : Nat)
    (own_listening : SocketAddr) (conn sbc : SocketAddr → Bool)
    (peer_addrs : List SocketAddr)
    (hnone : get_peer_listening_addr st source = none) :
    process_ping st net source nt ver sst height glocators =
      (net, ClientMessage.pong none glocators) ∧
    (process_peer_response own_listening st conn sbc net source
      peer_addrs).1 = net ∧
    (process_peer_response own_listening st conn sbc net source
      peer_addrs).2 =
      (peer_addrs.filter (fun a => own_listening ≠ a)).filter
        (fun a => !(is_connected conn st a) && sbc a) := by
  unfold process_ping process_peer_response
  simp [hnone]

/-- C10 witness: an unknown source against the empty registry. -/
theorem c10_witness :
    get_peer_listening_addr (ClientState.empty 7) ⟨2, 2⟩ = none ∧
    process_ping (ClientState.empty 7) (KnownNetwork.mk [] []) ⟨2, 2⟩
        .client 1 .ready 5 9 =
      (KnownNetwork.mk [] [], ClientMessage.pong none 9) ∧
    (process_peer_response ⟨1, 1⟩ (ClientState.empty 7) (fun _ => false)
      (fun _ => true) (KnownNetwork.mk [] []) ⟨2, 2⟩ [⟨3, 3⟩]).1 =
      KnownNetwork.mk [] [] :=
  ⟨by decide,
    (c10_unknown_source_frame_effect (ClientState.empty 7)
      (KnownNetwork.mk [] []) ⟨2, 2⟩ .client 1 .ready 5 9 ⟨1, 1⟩
      (fun _ => false) (fun _ => true) [⟨3, 3⟩] (by decide)).1,
    (c10_unknown_source_frame_effect (ClientState.empty 7)
      (KnownNetwork.mk [] []) ⟨2, 2⟩ .client 1 .ready 5 9 ⟨1, 1⟩
      (fun _ => false) (fun _ => true) [⟨3, 3⟩] (by decide)).2.1⟩


end Crawler
